import Mathlib

/-!
Verification of the transcript-evaluation logic of the MCP server instructions
demo repository.  The evaluator is a shell script (`evaluate_instructions.sh`);
its core functions are `check_tools_present`, `count_tool_occurrences` and
`detect_error_pattern`, all of which operate on the tool-call sequence
serialized as a comma-separated string.  We embed strings as `List Char` and
model the shell's word splitting, substring matching and `grep -b -o` offset
computation explicitly.
-/

set_option maxRecDepth 20000

/-- Tool name `create_pending_pull_request_review` (the "begin review" tool). -/
def createPendingTool : List Char := "create_pending_pull_request_review".data

/-- Tool name `add_comment_to_pending_review` (the "comment" tool). -/
def addCommentTool : List Char := "add_comment_to_pending_review".data

/-- Tool name `submit_pending_pull_request_review` (the "submit" tool). -/
def submitPendingTool : List Char := "submit_pending_pull_request_review".data

/-- Tool name `create_and_submit_pull_request_review` (the single-step tool). -/
def createAndSubmitTool : List Char := "create_and_submit_pull_request_review".data

/-- Tool name `create_issue`. -/
def createIssueTool : List Char := "create_issue".data

/-- Tool name `create_pull_request`. -/
def createPullRequestTool : List Char := "create_pull_request".data

/-- The six tool-name constants the classifier compares against (spec section 6). -/
def knownTools : List (List Char) :=
  [createPendingTool, addCommentTool, submitPendingTool,
   createAndSubmitTool, createIssueTool, createPullRequestTool]

/-- Split a character list at every comma, keeping empty fields
(the raw field decomposition underlying `IFS=',' read -ra`). -/
def splitComma : List Char → List (List Char)
  | [] => [[]]
  | c :: rest =>
    if c = ',' then [] :: splitComma rest
    else
      match splitComma rest with
      | [] => [[c]]
      | f :: fs => (c :: f) :: fs

/-- Bash field splitting drops a single trailing empty field: `"a,"` yields
one field `a`, and the empty string yields no fields at all. -/
def dropTrailingEmptyField (fields : List (List Char)) : List (List Char) :=
  match fields.getLast? with
  | some [] => fields.dropLast
  | _ => fields

/-- Model of `IFS=',' read -ra tools <<< "$s"` as used by `check_tools_present`
and `count_tool_occurrences`. -/
def bashSplit (s : List Char) : List (List Char) :=
  dropTrailingEmptyField (splitComma s)

/-- Serialization performed by `extract_tool_sequence`: the extracted names are
joined with commas (`tr '\n' ','` followed by stripping the trailing comma). -/
def joinSeq : List (List Char) → List Char
  | [] => []
  | t :: rest =>
    match rest with
    | [] => t
    | _ :: _ => t ++ ',' :: joinSeq rest

/-- Does pattern `p` match at the head of `t`? -/
def matchesAt : List Char → List Char → Bool
  | [], _ => true
  | _ :: _, [] => false
  | c :: p, d :: t => c == d && matchesAt p t

/-- Bash substring test `[[ "$text" == *"$p"* ]]`: `p` matches at some
position of `text`. -/
def hasSub (p : List Char) : List Char → Bool
  | [] => matchesAt p []
  | c :: rest => matchesAt p (c :: rest) || hasSub p rest

/-- Left-to-right non-overlapping match scan of `grep -b -o`: emit the byte
offset of each leftmost match and resume after its end.  The fuel argument is
an upper bound on the scan steps (the text length suffices); it only makes the
recursion structural and is never exhausted when `fuel ≥ text.length`. -/
def grepPosAux : Nat → List Char → List Char → Nat → List Nat
  | 0, _, _, _ => []
  | fuel + 1, p, text, i =>
    if matchesAt p text ∧ p ≠ [] then
      i :: grepPosAux fuel p (text.drop p.length) (i + p.length)
    else
      match text with
      | [] => []
      | _ :: rest => grepPosAux fuel p rest (i + 1)

/-- Byte offsets of all `grep -b -o` matches of `p` in `text`. -/
def grepPositions (p text : List Char) : List Nat :=
  grepPosAux text.length p text 0

/-- The three presence flags accumulated by the `pr_review`/`with_instructions`
loop of `check_tools_present` (an `if`/`elif` chain over the split tools). -/
def prStrictFlags : List (List Char) → Bool → Bool → Bool → Bool × Bool × Bool
  | [], hasCreate, hasAdd, hasSubmit => (hasCreate, hasAdd, hasSubmit)
  | t :: rest, hasCreate, hasAdd, hasSubmit =>
    if t = createPendingTool then prStrictFlags rest true hasAdd hasSubmit
    else if t = addCommentTool then prStrictFlags rest hasCreate true hasSubmit
    else if t = submitPendingTool then prStrictFlags rest hasCreate hasAdd true
    else prStrictFlags rest hasCreate hasAdd hasSubmit

/-- Strict `pr_review` rule: all three multi-step tools must be present. -/
def prStrictCheck (tools : List (List Char)) : Bool :=
  let f := prStrictFlags tools false false false
  f.1 && f.2.1 && f.2.2

/-- Permissive `pr_review` rule: any of the four review-related tools suffices
(the loop returns `true` at the first match). -/
def prPermissiveCheck (tools : List (List Char)) : Bool :=
  tools.any fun t =>
    decide (t = createPendingTool ∨ t = addCommentTool ∨
            t = submitPendingTool ∨ t = createAndSubmitTool)

/-- `simple_pr_comment` rule: the single-step tool must be present. -/
def simpleCommentCheck (tools : List (List Char)) : Bool :=
  tools.any fun t => decide (t = createAndSubmitTool)

/-- The two presence flags accumulated by the `issue_linking` loop. -/
def issueFlags : List (List Char) → Bool → Bool → Bool × Bool
  | [], hasIssue, hasPR => (hasIssue, hasPR)
  | t :: rest, hasIssue, hasPR =>
    if t = createIssueTool then issueFlags rest true hasPR
    else if t = createPullRequestTool then issueFlags rest hasIssue true
    else issueFlags rest hasIssue hasPR

/-- `issue_linking` rule: both `create_issue` and `create_pull_request`. -/
def issueLinkingCheck (tools : List (List Char)) : Bool :=
  let f := issueFlags tools false false
  f.1 && f.2

/-- The task/variant dispatch of `check_tools_present` (the `case "$task"`
statement), applied to the already-split tool list; the `case` default branch
duplicates the `pr_review` logic verbatim, so the model shares it. -/
def classifySuccess (tools : List (List Char)) (task instructionsVariant : String) : Bool :=
  if task = "pr_review" then
    if instructionsVariant = "with_instructions" then prStrictCheck tools
    else prPermissiveCheck tools
  else if task = "simple_pr_comment" then simpleCommentCheck tools
  else if task = "issue_linking" then issueLinkingCheck tools
  else
    if instructionsVariant = "with_instructions" then prStrictCheck tools
    else prPermissiveCheck tools

/-- `check_tools_present` from the evaluation script: split the serialized
sequence on commas, then dispatch on the task string. -/
def check_tools_present (actual : List Char) (task instructionsVariant : String) : Bool :=
  classifySuccess (bashSplit actual) task instructionsVariant

/-- `count_tool_occurrences`: split the serialized sequence and count the
fields equal to the target name. -/
def count_tool_occurrences (sequence toolName : List Char) : Nat :=
  (bashSplit sequence).count toolName

/-- `detect_error_pattern`: priority chain of substring checks over the
serialized sequence.  In the `wrong_order` branch the script captures the
output of `grep -b -o | cut -d: -f1` for each of the two names; when either
name matches more than once that capture is a multi-line string and the
`[[ $submit_pos -lt $create_pos ]]` arithmetic comparison fails with a bash
syntax error, so the condition is false and the function falls through to
`none`.  The comparison therefore only fires when each name matches exactly
once. -/
def detect_error_pattern (sequence : List Char) : String :=
  if hasSub createAndSubmitTool sequence && !hasSub createPendingTool sequence then
    "immediate_submit"
  else if hasSub createPendingTool sequence && !hasSub addCommentTool sequence then
    "missing_line_comments"
  else if hasSub submitPendingTool sequence && hasSub createPendingTool sequence then
    match grepPositions submitPendingTool sequence,
          grepPositions createPendingTool sequence with
    | [s], [c] => if s < c then "wrong_order" else "none"
    | _, _ => "none"
  else "none"

/-- A well-formed tool name: nonempty and separator-free. -/
abbrev WFName (t : List Char) : Prop := t ≠ [] ∧ ',' ∉ t

/-- A well-formed tool sequence: every name is well formed. -/
abbrev WFSeq (ts : List (List Char)) : Prop := ∀ t ∈ ts, WFName t

/-- A sequence drawn from the classifier's tool vocabulary. -/
abbrev InKnown (ts : List (List Char)) : Prop := ∀ t ∈ ts, t ∈ knownTools

/-! ### Splitting and serialization lemmas -/

theorem splitComma_ne_nil (s : List Char) : splitComma s ≠ [] := by
  induction s with
  | nil => simp [splitComma]
  | cons c rest ih =>
    simp only [splitComma]
    by_cases hc : c = ','
    · simp [hc]
    · simp only [hc, if_false]
      cases h : splitComma rest with
      | nil => simp
      | cons f fs => simp

theorem splitComma_no_comma (t : List Char) (h : ',' ∉ t) : splitComma t = [t] := by
  induction t with
  | nil => rfl
  | cons c rest ih =>
    have hc : ¬ c = ',' := fun hc => h (hc ▸ List.mem_cons_self c rest)
    have hr : ',' ∉ rest := fun hm => h (List.mem_cons_of_mem c hm)
    simp only [splitComma, hc, if_false, ih hr]

theorem splitComma_append (t z : List Char) (h : ',' ∉ t) :
    splitComma (t ++ ',' :: z) = t :: splitComma z := by
  induction t with
  | nil => simp [splitComma]
  | cons c rest ih =>
    have hc : ¬ c = ',' := fun hc => h (hc ▸ List.mem_cons_self c rest)
    have hr : ',' ∉ rest := fun hm => h (List.mem_cons_of_mem c hm)
    simp only [List.cons_append, splitComma, hc, if_false, List.append_eq]
    rw [ih hr]

theorem dropTrailingEmptyField_cons (x : List Char) (l : List (List Char)) (h : l ≠ []) :
    dropTrailingEmptyField (x :: l) = x :: dropTrailingEmptyField l := by
  cases l with
  | nil => exact absurd rfl h
  | cons y l' =>
    simp only [dropTrailingEmptyField, List.getLast?_cons_cons]
    cases hlast : (y :: l').getLast? with
    | none => simp
    | some last =>
      cases last with
      | nil => simp [List.dropLast]
      | cons a as => simp

theorem bashSplit_joinSeq (ts : List (List Char)) (h : WFSeq ts) :
    bashSplit (joinSeq ts) = ts := by
  induction ts with
  | nil => rfl
  | cons t rest ih =>
    have ht : WFName t := h t (List.mem_cons_self t rest)
    have hrest : WFSeq rest := fun u hu => h u (List.mem_cons_of_mem t hu)
    cases rest with
    | nil =>
      show bashSplit (joinSeq [t]) = [t]
      have hj : joinSeq [t] = t := rfl
      rw [hj]
      unfold bashSplit
      rw [splitComma_no_comma t ht.2]
      cases hcase : t with
      | nil => exact absurd hcase ht.1
      | cons c cs => simp [dropTrailingEmptyField]
    | cons u rest' =>
      have hj : joinSeq (t :: u :: rest') = t ++ ',' :: joinSeq (u :: rest') := rfl
      rw [hj]
      unfold bashSplit
      rw [splitComma_append _ _ ht.2,
        dropTrailingEmptyField_cons _ _ (splitComma_ne_nil _)]
      have := ih hrest
      unfold bashSplit at this
      rw [this]

/-! ### Success-check characterizations -/

theorem prStrictFlags_spec (tools : List (List Char)) (a b c : Bool) :
    prStrictFlags tools a b c =
      (a || decide (createPendingTool ∈ tools),
       b || decide (addCommentTool ∈ tools),
       c || decide (submitPendingTool ∈ tools)) := by
  induction tools generalizing a b c with
  | nil => simp [prStrictFlags]
  | cons t rest ih =>
    by_cases h1 : t = createPendingTool
    · subst h1
      simp [prStrictFlags, ih, List.mem_cons,
        (by decide : ¬(addCommentTool = createPendingTool)),
        (by decide : ¬(submitPendingTool = createPendingTool))]
    · by_cases h2 : t = addCommentTool
      · subst h2
        simp [prStrictFlags, h1, ih, List.mem_cons,
          (by decide : ¬(createPendingTool = addCommentTool)),
          (by decide : ¬(submitPendingTool = addCommentTool))]
      · by_cases h3 : t = submitPendingTool
        · subst h3
          simp [prStrictFlags, h1, h2, ih, List.mem_cons,
            (by decide : ¬(createPendingTool = submitPendingTool)),
            (by decide : ¬(addCommentTool = submitPendingTool))]
        · have e1 : ¬(createPendingTool = t) := fun h => h1 h.symm
          have e2 : ¬(addCommentTool = t) := fun h => h2 h.symm
          have e3 : ¬(submitPendingTool = t) := fun h => h3 h.symm
          simp [prStrictFlags, h1, h2, h3, ih, List.mem_cons, e1, e2, e3]

theorem prStrictCheck_iff (tools : List (List Char)) :
    prStrictCheck tools = true ↔
      createPendingTool ∈ tools ∧ addCommentTool ∈ tools ∧ submitPendingTool ∈ tools := by
  simp [prStrictCheck, prStrictFlags_spec, and_assoc]

theorem prPermissiveCheck_iff (tools : List (List Char)) :
    prPermissiveCheck tools = true ↔
      createPendingTool ∈ tools ∨ addCommentTool ∈ tools ∨
      submitPendingTool ∈ tools ∨ createAndSubmitTool ∈ tools := by
  simp only [prPermissiveCheck, List.any_eq_true, decide_eq_true_eq]
  constructor
  · rintro ⟨t, ht, h | h | h | h⟩ <;> subst h
    · exact Or.inl ht
    · exact Or.inr (Or.inl ht)
    · exact Or.inr (Or.inr (Or.inl ht))
    · exact Or.inr (Or.inr (Or.inr ht))
  · rintro (h | h | h | h)
    · exact ⟨_, h, Or.inl rfl⟩
    · exact ⟨_, h, Or.inr (Or.inl rfl)⟩
    · exact ⟨_, h, Or.inr (Or.inr (Or.inl rfl))⟩
    · exact ⟨_, h, Or.inr (Or.inr (Or.inr rfl))⟩

theorem simpleCommentCheck_iff (tools : List (List Char)) :
    simpleCommentCheck tools = true ↔ createAndSubmitTool ∈ tools := by
  simp [simpleCommentCheck, List.any_eq_true]

theorem issueFlags_spec (tools : List (List Char)) (a b : Bool) :
    issueFlags tools a b =
      (a || decide (createIssueTool ∈ tools),
       b || decide (createPullRequestTool ∈ tools)) := by
  induction tools generalizing a b with
  | nil => simp [issueFlags]
  | cons t rest ih =>
    by_cases h1 : t = createIssueTool
    · subst h1
      simp [issueFlags, ih, List.mem_cons,
        (by decide : ¬(createPullRequestTool = createIssueTool))]
    · by_cases h2 : t = createPullRequestTool
      · subst h2
        simp [issueFlags, h1, ih, List.mem_cons,
          (by decide : ¬(createIssueTool = createPullRequestTool))]
      · have e1 : ¬(createIssueTool = t) := fun h => h1 h.symm
        have e2 : ¬(createPullRequestTool = t) := fun h => h2 h.symm
        simp [issueFlags, h1, h2, ih, List.mem_cons, e1, e2]

theorem issueLinkingCheck_iff (tools : List (List Char)) :
    issueLinkingCheck tools = true ↔
      createIssueTool ∈ tools ∧ createPullRequestTool ∈ tools := by
  simp [issueLinkingCheck, issueFlags_spec]

/-! ### Task dispatch lemmas -/

theorem check_pr_strict (s : List Char) :
    check_tools_present s "pr_review" "with_instructions" = prStrictCheck (bashSplit s) := by
  simp [check_tools_present, classifySuccess]

theorem check_pr_permissive (s : List Char) (v : String) (hv : v ≠ "with_instructions") :
    check_tools_present s "pr_review" v = prPermissiveCheck (bashSplit s) := by
  simp [check_tools_present, classifySuccess, hv]

theorem check_simple (s : List Char) (v : String) :
    check_tools_present s "simple_pr_comment" v = simpleCommentCheck (bashSplit s) := by
  simp [check_tools_present, classifySuccess]

theorem check_issue (s : List Char) (v : String) :
    check_tools_present s "issue_linking" v = issueLinkingCheck (bashSplit s) := by
  simp [check_tools_present, classifySuccess]

/-! ### Substring lemmas for the error-pattern detector -/

theorem matchesAt_append_comma (p x y : List Char) (hp : ',' ∉ p) :
    matchesAt p (x ++ ',' :: y) = matchesAt p x := by
  induction p generalizing x with
  | nil => simp [matchesAt]
  | cons c p' ih =>
    have hc : ¬ c = ',' := fun hc => hp (hc ▸ List.mem_cons_self c p')
    have hp' : ',' ∉ p' := fun hm => hp (List.mem_cons_of_mem c hm)
    cases x with
    | nil =>
      simp only [List.nil_append, matchesAt]
      simp [beq_iff_eq, hc]
    | cons d x' =>
      simp only [List.cons_append, matchesAt, List.append_eq]
      rw [ih x' hp']

theorem matchesAt_refl (p : List Char) : matchesAt p p = true := by
  induction p with
  | nil => rfl
  | cons c p' ih => simp [matchesAt, ih]

theorem hasSub_nil (p : List Char) (hp : p ≠ []) : hasSub p [] = false := by
  cases p with
  | nil => exact absurd rfl hp
  | cons c p' => rfl

theorem hasSub_self (p : List Char) : hasSub p p = true := by
  cases p with
  | nil => rfl
  | cons c p' => simp [hasSub, matchesAt_refl]

theorem hasSub_append_comma (p x y : List Char) (hp : p ≠ []) (hc : ',' ∉ p) :
    hasSub p (x ++ ',' :: y) = (hasSub p x || hasSub p y) := by
  induction x with
  | nil =>
    simp only [List.nil_append, hasSub]
    have h1 : matchesAt p (',' :: y) = false := by
      cases p with
      | nil => exact absurd rfl hp
      | cons c p' =>
        have : ¬ c = ',' := fun h => hc (h ▸ List.mem_cons_self c p')
        simp [matchesAt, beq_iff_eq, this]
    have h2 : matchesAt p [] = false := by
      cases p with
      | nil => exact absurd rfl hp
      | cons c p' => rfl
    simp [h1, h2]
  | cons a x' ih =>
    simp only [List.cons_append, hasSub, List.append_eq]
    rw [ih]
    have h := matchesAt_append_comma p (a :: x') y hc
    rw [List.cons_append] at h
    rw [h, Bool.or_assoc]

theorem hasSub_joinSeq (p : List Char) (hp : p ≠ []) (hc : ',' ∉ p)
    (ts : List (List Char)) :
    hasSub p (joinSeq ts) = ts.any fun t => hasSub p t := by
  induction ts with
  | nil => simp [joinSeq, hasSub_nil p hp]
  | cons t rest ih =>
    cases rest with
    | nil => simp [joinSeq]
    | cons u rest' =>
      have hj : joinSeq (t :: u :: rest') = t ++ ',' :: joinSeq (u :: rest') := rfl
      rw [hj, hasSub_append_comma p _ _ hp hc, ih]
      simp

theorem hasSub_createPending_known (t : List Char) (ht : t ∈ knownTools) :
    hasSub createPendingTool t = decide (t = createPendingTool) := by
  fin_cases ht <;> decide

/-! ### Monotonicity of the success checks -/

theorem prStrictCheck_mono {l l' : List (List Char)} (h : ∀ x ∈ l, x ∈ l')
    (hl : prStrictCheck l = true) : prStrictCheck l' = true := by
  rw [prStrictCheck_iff] at hl ⊢
  exact ⟨h _ hl.1, h _ hl.2.1, h _ hl.2.2⟩

theorem prPermissiveCheck_mono {l l' : List (List Char)} (h : ∀ x ∈ l, x ∈ l')
    (hl : prPermissiveCheck l = true) : prPermissiveCheck l' = true := by
  rw [prPermissiveCheck_iff] at hl ⊢
  rcases hl with h1 | h1 | h1 | h1
  · exact Or.inl (h _ h1)
  · exact Or.inr (Or.inl (h _ h1))
  · exact Or.inr (Or.inr (Or.inl (h _ h1)))
  · exact Or.inr (Or.inr (Or.inr (h _ h1)))

theorem simpleCommentCheck_mono {l l' : List (List Char)} (h : ∀ x ∈ l, x ∈ l')
    (hl : simpleCommentCheck l = true) : simpleCommentCheck l' = true := by
  rw [simpleCommentCheck_iff] at hl ⊢
  exact h _ hl

theorem issueLinkingCheck_mono {l l' : List (List Char)} (h : ∀ x ∈ l, x ∈ l')
    (hl : issueLinkingCheck l = true) : issueLinkingCheck l' = true := by
  rw [issueLinkingCheck_iff] at hl ⊢
  exact ⟨h _ hl.1, h _ hl.2⟩

theorem classifySuccess_mono (l l' : List (List Char)) (task variant : String)
    (h : ∀ x ∈ l, x ∈ l') (hl : classifySuccess l task variant = true) :
    classifySuccess l' task variant = true := by
  unfold classifySuccess at hl ⊢
  split_ifs at hl ⊢
  all_goals first
    | exact prStrictCheck_mono h hl
    | exact prPermissiveCheck_mono h hl
    | exact simpleCommentCheck_mono h hl
    | exact issueLinkingCheck_mono h hl

/-! ### Claims -/

/-- Claim C1: for task `pr_review` with variant `with_instructions`, the success
check returns `true` exactly when the sequence contains all three of the
begin-review, comment and submit tools (each with multiplicity at least one);
if any of the three is missing it returns `false`. -/
theorem c1_pr_strict_success (ts : List (List Char)) (h : WFSeq ts) :
    check_tools_present (joinSeq ts) "pr_review" "with_instructions" = true ↔
      createPendingTool ∈ ts ∧ addCommentTool ∈ ts ∧ submitPendingTool ∈ ts := by
  rw [check_pr_strict, bashSplit_joinSeq ts h, prStrictCheck_iff]

/-- Witness for C1 at the concrete sequence [submit, comment, begin-review]. -/
theorem c1_pr_strict_success_witness :
    check_tools_present (joinSeq [submitPendingTool, addCommentTool, createPendingTool])
      "pr_review" "with_instructions" = true :=
  (c1_pr_strict_success _ (by decide)).mpr ⟨by decide, by decide, by decide⟩

/-- Claim C2: when the single-step tool is present and the begin-review tool is
absent, error-pattern detection reports `immediate_submit`, regardless of any
lower-priority pattern being satisfied (the predicates are evaluated in the
fixed priority order and the first hit wins). -/
theorem c2_immediate_submit_priority (ts : List (List Char)) (hk : InKnown ts)
    (hcas : createAndSubmitTool ∈ ts) (hcp : createPendingTool ∉ ts) :
    detect_error_pattern (joinSeq ts) = "immediate_submit" := by
  have h1 : hasSub createAndSubmitTool (joinSeq ts) = true := by
    rw [hasSub_joinSeq _ (by decide) (by decide)]
    exact List.any_eq_true.mpr ⟨_, hcas, hasSub_self _⟩
  have h2 : hasSub createPendingTool (joinSeq ts) = false := by
    rw [hasSub_joinSeq _ (by decide) (by decide)]
    rw [List.any_eq_false]
    intro t ht
    rw [hasSub_createPending_known t (hk t ht)]
    simp only [decide_eq_true_eq]
    exact fun he => hcp (he ▸ ht)
  simp [detect_error_pattern, h1, h2]

/-- Witness for C2 at the concrete sequence [submit, create-and-submit]. -/
theorem c2_immediate_submit_priority_witness :
    detect_error_pattern (joinSeq [submitPendingTool, createAndSubmitTool]) =
      "immediate_submit" :=
  c2_immediate_submit_priority _ (by decide) (by decide) (by decide)

/-- Claim C3 fails on the code: on the sequence
[submit, submit, begin-review, comment] the first submit (call index 0)
precedes the first begin-review (call index 2), so the claim demands
`wrong_order`, but `grep -b -o` yields two offsets for the submit tool, the
`[[ ... -lt ... ]]` comparison aborts with a bash syntax error and the
detector falls through to `none`.  With single occurrences (scenario
[submit, begin-review, comment]) the claimed behavior does hold. -/
theorem c3_wrong_order_divergence :
    detect_error_pattern
      (joinSeq [submitPendingTool, submitPendingTool, createPendingTool, addCommentTool]) =
        "none" ∧
    [submitPendingTool, submitPendingTool, createPendingTool,
      addCommentTool].indexOf submitPendingTool = 0 ∧
    [submitPendingTool, submitPendingTool, createPendingTool,
      addCommentTool].indexOf createPendingTool = 2 ∧
    detect_error_pattern
      (joinSeq [submitPendingTool, createPendingTool, addCommentTool]) = "wrong_order" ∧
    check_tools_present (joinSeq [submitPendingTool, createPendingTool, addCommentTool])
      "pr_review" "with_instructions" = true := by
  decide

/-- Claim C4: occurrence counting is exact — the count for a target name is
the number of sequence elements equal to it. -/
theorem c4_count_exact (ts : List (List Char)) (name : List Char) (h : WFSeq ts) :
    count_tool_occurrences (joinSeq ts) name = ts.count name := by
  unfold count_tool_occurrences
  rw [bashSplit_joinSeq ts h]

/-- Witness for C4: the begin-review tool appearing 3 times counts 3, a tool
absent from the sequence counts 0. -/
theorem c4_count_exact_witness :
    count_tool_occurrences
      (joinSeq [createPendingTool, addCommentTool, createPendingTool, createPendingTool])
      createPendingTool = 3 ∧
    count_tool_occurrences
      (joinSeq [createPendingTool, addCommentTool, createPendingTool, createPendingTool])
      createIssueTool = 0 := by
  constructor
  · rw [c4_count_exact _ _ (by decide)]; decide
  · rw [c4_count_exact _ _ (by decide)]; decide

/-- Claim C5: for task `pr_review` under any variant other than
`with_instructions`, success holds exactly when at least one of the four
review-related tools occurs. -/
theorem c5_pr_permissive_success (ts : List (List Char)) (v : String) (h : WFSeq ts)
    (hv : v ≠ "with_instructions") :
    check_tools_present (joinSeq ts) "pr_review" v = true ↔
      createPendingTool ∈ ts ∨ addCommentTool ∈ ts ∨
      submitPendingTool ∈ ts ∨ createAndSubmitTool ∈ ts := by
  rw [check_pr_permissive _ _ hv, bashSplit_joinSeq ts h, prPermissiveCheck_iff]

/-- Witness for C5 at the sequence [create-and-submit] with variant
NO_instructions. -/
theorem c5_pr_permissive_success_witness :
    check_tools_present (joinSeq [createAndSubmitTool]) "pr_review" "NO_instructions" = true :=
  (c5_pr_permissive_success _ _ (by decide) (by decide)).mpr
    (Or.inr (Or.inr (Or.inr (by decide))))

/-- Claim C6: `issue_linking` succeeds exactly when both `create_issue` and
`create_pull_request` are present (order not checked), and `simple_pr_comment`
succeeds exactly when the single-step tool is present, regardless of the
other tools. -/
theorem c6_issue_and_simple_success (ts : List (List Char)) (v : String) (h : WFSeq ts) :
    (check_tools_present (joinSeq ts) "issue_linking" v = true ↔
      createIssueTool ∈ ts ∧ createPullRequestTool ∈ ts) ∧
    (check_tools_present (joinSeq ts) "simple_pr_comment" v = true ↔
      createAndSubmitTool ∈ ts) := by
  constructor
  · rw [check_issue, bashSplit_joinSeq ts h, issueLinkingCheck_iff]
  · rw [check_simple, bashSplit_joinSeq ts h, simpleCommentCheck_iff]

/-- Witness for C6 at concrete sequences. -/
theorem c6_issue_and_simple_success_witness :
    check_tools_present (joinSeq [createIssueTool, createPullRequestTool])
      "issue_linking" "unknown" = true ∧
    check_tools_present (joinSeq [submitPendingTool, createAndSubmitTool])
      "simple_pr_comment" "unknown" = true :=
  ⟨(c6_issue_and_simple_success _ _ (by decide)).1.mpr ⟨by decide, by decide⟩,
   (c6_issue_and_simple_success _ _ (by decide)).2.mpr (by decide)⟩

/-- Claim C7: on the empty tool sequence the classifier is total and yields
success `false` for every task and variant, error pattern `none`, and all
four occurrence counts `0`. -/
theorem c7_empty_sequence (task variant : String) :
    check_tools_present (joinSeq []) task variant = false ∧
    detect_error_pattern (joinSeq []) = "none" ∧
    count_tool_occurrences (joinSeq []) createPendingTool = 0 ∧
    count_tool_occurrences (joinSeq []) addCommentTool = 0 ∧
    count_tool_occurrences (joinSeq []) submitPendingTool = 0 ∧
    count_tool_occurrences (joinSeq []) createAndSubmitTool = 0 := by
  refine ⟨?_, by decide, by decide, by decide, by decide, by decide⟩
  show classifySuccess (bashSplit (joinSeq [])) task variant = false
  rw [show bashSplit (joinSeq []) = [] from by decide]
  unfold classifySuccess
  split_ifs <;> decide

/-- Witness for C7 at a concrete task and variant. -/
theorem c7_empty_sequence_witness :
    check_tools_present (joinSeq []) "pr_review" "with_instructions" = false :=
  (c7_empty_sequence "pr_review" "with_instructions").1

/-- Claim C8 as stated is false: the one-element list containing the empty
name satisfies the stated precondition (no name contains the separator), yet
joining and re-splitting yields the empty list, not the original list, since
bash field splitting drops the trailing empty field. -/
theorem c8_roundtrip_counterexample :
    (',' ∉ ([] : List Char)) ∧
    bashSplit (joinSeq [([] : List Char)]) ≠ [([] : List Char)] := by
  decide

/-- Claim C8 (amended): joining N tool names with the comma separator and
re-splitting returns the original names in order, provided every name is
nonempty and separator-free. -/
theorem c8_roundtrip (ts : List (List Char)) (h : WFSeq ts) :
    bashSplit (joinSeq ts) = ts :=
  bashSplit_joinSeq ts h

/-- Witness for C8 at N = 0, N = 1 and N = 3. -/
theorem c8_roundtrip_witness :
    bashSplit (joinSeq ([] : List (List Char))) = [] ∧
    bashSplit (joinSeq [createIssueTool]) = [createIssueTool] ∧
    bashSplit (joinSeq [createIssueTool, createPullRequestTool, createIssueTool]) =
      [createIssueTool, createPullRequestTool, createIssueTool] :=
  ⟨c8_roundtrip _ (by decide), c8_roundtrip _ (by decide), c8_roundtrip _ (by decide)⟩

/-- Claim C9: the success check is monotone under sequence extension — every
success rule is a presence check, so inserting extra tool calls anywhere
(sublist extension) cannot turn success into failure; stated for every task
and variant, which covers `pr_review`. -/
theorem c9_success_monotone (S S' : List (List Char)) (task variant : String)
    (hsub : S.Sublist S') (h' : WFSeq S')
    (hS : check_tools_present (joinSeq S) task variant = true) :
    check_tools_present (joinSeq S') task variant = true := by
  have hWF : WFSeq S := fun t ht => h' t (hsub.subset ht)
  have hS0 : classifySuccess S task variant = true := by
    have e : check_tools_present (joinSeq S) task variant =
        classifySuccess S task variant := by
      show classifySuccess (bashSplit (joinSeq S)) task variant = _
      rw [bashSplit_joinSeq S hWF]
    rwa [e] at hS
  show classifySuccess (bashSplit (joinSeq S')) task variant = true
  rw [bashSplit_joinSeq S' h']
  exact classifySuccess_mono S S' task variant (fun x hx => hsub.subset hx) hS0

/-- Witness for C9: extending [create-and-submit] to
[begin-review, create-and-submit] preserves `simple_pr_comment` success. -/
theorem c9_success_monotone_witness :
    check_tools_present (joinSeq [createPendingTool, createAndSubmitTool])
      "simple_pr_comment" "unknown" = true :=
  c9_success_monotone [createAndSubmitTool] [createPendingTool, createAndSubmitTool]
    "simple_pr_comment" "unknown" (by decide) (by decide) (by decide)

/-- Claim C10: for task `pr_review`, strict success implies permissive
success — if the check passes with variant `with_instructions`, it passes for
the same serialized sequence with any other variant. -/
theorem c10_strict_implies_permissive (s : List Char) (variant : String)
    (hv : variant ≠ "with_instructions")
    (h : check_tools_present s "pr_review" "with_instructions" = true) :
    check_tools_present s "pr_review" variant = true := by
  rw [check_pr_strict, prStrictCheck_iff] at h
  rw [check_pr_permissive _ _ hv, prPermissiveCheck_iff]
  exact Or.inl h.1

/-- Witness for C10 at the full three-step sequence and variant unknown. -/
theorem c10_strict_implies_permissive_witness :
    check_tools_present (joinSeq [createPendingTool, addCommentTool, submitPendingTool])
      "pr_review" "unknown" = true :=
  c10_strict_implies_permissive _ _ (by decide) (by decide)
